import Mathlib

/-!
Shallow embedding of `src/app.py` (gitTrace): the repository
materialization and serialization pipeline.  Strings are modelled as
`List Char`, the acquired snapshot as a rose tree of directories, and the
network / git / temp-directory effects as values injected through an
`Oracle` record.
-/

/-- Convert a string literal to the `List Char` representation used throughout. -/
def strL (s : String) : List Char := s.toList

/-- Python `s.startswith(p)` on the `List Char` representation. -/
def pfx : List Char → List Char → Bool
  | [], _ => true
  | _ :: _, [] => false
  | a :: as, b :: bs => a == b && pfx as bs

/-- Python substring membership `sep in s`. -/
def hasSub (sep : List Char) : List Char → Bool
  | [] => pfx sep []
  | c :: rest => pfx sep (c :: rest) || hasSub sep rest

/-- Python `s.split(sep)[0]` for a non-empty separator: the part of `s` before
the first occurrence of `sep` (all of `s` when `sep` does not occur). -/
def splitFirst (sep : List Char) : List Char → List Char
  | [] => []
  | c :: rest => if pfx sep (c :: rest) then [] else c :: splitFirst sep rest

/-- Python `s.rstrip("/")`. -/
def rstripSlash (s : List Char) : List Char :=
  (s.reverse.dropWhile (fun c => c == '/')).reverse

/-- Python `s.split("/")[-1]`: the segment after the last slash. -/
def lastSegment (s : List Char) : List Char :=
  (s.reverse.takeWhile (fun c => !(c == '/'))).reverse

/-- Python `s.count("\n")`. -/
def countNL (s : List Char) : Nat := s.countP (fun c => c == '\n')

def treeMarker : List Char := strL "/tree/"

def blobMarker : List Char := strL "/blob/"

def gitToken : List Char := strL ".git"

def dotToken : List Char := strL "."

def githubHost : List Char := strL "github.com"

/-- URL normalization performed by `clone_repo` (src/app.py line 46): the URL
handed to `git clone` is the input with everything from the first `/tree/`
marker onward removed.  The `/blob/` marker is not touched there. -/
def clone_repo (repo_url : List Char) : List Char :=
  splitFirst treeMarker repo_url

/-- src/app.py lines 49-54: strip the `/tree/` marker, then the `/blob/`
marker, take the last slash-delimited segment of the result without trailing
slashes, and truncate that segment at its first dot when it has one. -/
def extract_repo_name_from_url (repo_url : List Char) : List Char :=
  let u1 := splitFirst treeMarker repo_url
  let u2 := splitFirst blobMarker u1
  let repo_name := lastSegment (rstripSlash u2)
  if hasSub dotToken repo_name then splitFirst dotToken repo_name else repo_name

/-- Locator Parser contract from the spec: the canonical clone URL actually
handed to git, together with the derived short repository name. -/
def normalizeLocator (repo_url : List Char) : List Char × List Char :=
  (clone_repo repo_url, extract_repo_name_from_url repo_url)

/-- Modelled from the spec: the canonical URL obtained by stripping everything
from the `/tree/` marker and then from the `/blob/` marker.  Used to compare
the clone URL actually handed to git against the specification text. -/
def canonical_url_spec (repo_url : List Char) : List Char :=
  splitFirst blobMarker (splitFirst treeMarker repo_url)




/-- Outcome of opening one file on disk: either it decodes as UTF-8 text, or
reading it raises `UnicodeDecodeError` / `OSError` with the given message. -/
inductive FileData where
  | text (content : List Char)
  | unreadable (reason : List Char)
deriving DecidableEq

mutual
/-- One directory of the acquired snapshot: its name, the plain files it
contains (name paired with the outcome of reading each), and its
subdirectories, both in `os.listdir` order. -/
inductive Dir where
  | mk (dname : List Char) (files : List (List Char × FileData)) (subdirs : DirList)

/-- A list of sibling directories (mutual with `Dir` so that all walker
definitions are structurally recursive and evaluate by `decide`). -/
inductive DirList where
  | nil
  | cons (d : Dir) (rest : DirList)
end

def Dir.name : Dir → List Char
  | .mk n _ _ => n

def Dir.files : Dir → List (List Char × FileData)
  | .mk _ fs _ => fs

/-- Python `os.path.join(a, b)` for the paths produced by this program. -/
def joinPath (a b : List Char) : List Char := a ++ '/' :: b

/-- Relative path of a child named `fname` of the directory whose path
relative to the snapshot root is `relDir` (`os.path.relpath` of the join). -/
def relJoin (relDir fname : List Char) : List Char :=
  if relDir = [] then fname else relDir ++ '/' :: fname

def indentOf (level : Nat) : List Char := List.replicate (4 * level) ' '

def branchMark : List Char := strL "├── "

mutual
/-- src/app.py lines 56-70, `get_directory_structure`: the lines emitted for
the `os.walk` subtree rooted at this directory, visited at depth `level`.
The depth is carried explicitly; in the source it is recovered from the path
via `root.replace(root_dir, "").count(os.sep)`. -/
def renderD (level : Nat) : Dir → List (List Char)
  | .mk n files subdirs =>
    (indentOf level ++ branchMark ++ n ++ ['/'])
      :: (files.map (fun f => indentOf (level + 1) ++ branchMark ++ f.1)
          ++ renderPruned (level + 1) subdirs)

/-- Descent into a sibling list from which `.git` has not yet been removed:
mirrors `dirs.remove(".git")`, which deletes only the first occurrence. -/
def renderPruned (level : Nat) : DirList → List (List Char)
  | .nil => []
  | .cons d rest =>
    if d.name = gitToken then renderAll level rest
    else renderD level d ++ renderPruned level rest

/-- Descent into a sibling list after the single `.git` entry was removed. -/
def renderAll (level : Nat) : DirList → List (List Char)
  | .nil => []
  | .cons d rest => renderD level d ++ renderAll level rest
end

/-- src/app.py lines 56-70: newline-joined rendering of the whole snapshot. -/
def get_directory_structure (root : Dir) : List Char :=
  List.intercalate ['\n'] (renderD 0 root)

def ignoredSentinel : List Char := strL "[Ignored .git directory]"

def errorSentinel (reason : List Char) : List Char :=
  strL "[Error reading file: " ++ reason ++ strL "]"

/-- src/app.py lines 72-81, `read_file_contents`: a path containing `.git`
anywhere (a substring test, not a path-segment test) is not opened at all;
otherwise the read yields the text, or the sentinel on a decoding or OS
failure. -/
def read_file_contents (file_path : List Char) (data : FileData) : List Char :=
  if hasSub gitToken file_path then ignoredSentinel
  else
    match data with
    | .text content => content
    | .unreadable reason => errorSentinel reason

mutual
/-- src/app.py lines 83-93, `extract_all_files_contents`, restricted to the
`os.walk` subtree whose root directory has absolute path `absDir` and path
`relDir` relative to the snapshot root.  The walk does not prune `.git`
directories; it merely skips the file loop for any root whose absolute path
contains `.git` as a substring. -/
def extractT (absDir relDir : List Char) : Dir → List (List Char × List Char)
  | .mk _ files subdirs =>
    (if hasSub gitToken absDir then []
     else files.map (fun f =>
       (relJoin relDir f.1, read_file_contents (joinPath absDir f.1) f.2)))
      ++ extractDs absDir relDir subdirs

def extractDs (absDir relDir : List Char) : DirList → List (List Char × List Char)
  | .nil => []
  | .cons d rest =>
    extractT (joinPath absDir d.name) (relJoin relDir d.name) d
      ++ extractDs absDir relDir rest
end

/-- src/app.py lines 83-93: the ordered relative-path / content association
list built for the snapshot rooted at absolute path `root_dir_path`. -/
def extract_all_files_contents (root_dir_path : List Char) (root : Dir) :
    List (List Char × List Char) :=
  extractT root_dir_path [] root



/-- Outcome of the one GitHub metadata request issued by `get_repo_size`
(injected, since the network is external): a 2xx JSON document whose optional
`size` field is in kilobytes, an `HTTPError`, a `URLError`, or any other
exception raised while fetching. -/
inductive ApiResponse where
  | ok (sizeField : Option ℚ)
  | httpError (code : Nat) (reason : List Char)
  | urlError (reason : List Char)
  | otherExc (reason : List Char)
deriving DecidableEq

/-- Error channel of the pipeline.  The source signals errors as strings; each
constructor stands for one `return None, ...` site and carries the values that
the corresponding message interpolates. -/
inductive PipeError where
  | invalidUrl
  | remoteApiError (code : Nat) (reason : List Char)
  | transferError (reason : List Char)
  | fetchError (reason : List Char)
  | sizeExceeded (sizeMB : ℚ) (limitMB : ℚ)
  | acquisitionError (diagnostic : List Char)
  | injectedError (message : List Char)
deriving DecidableEq

/-- src/app.py lines 15-16: after `rstrip("/")` and `split("/")`, the URL must
have at least five parts and `github.com` as its third part. -/
def valid_github_parts (repo_url : List Char) : Bool :=
  let parts := List.splitOn '/' (rstripSlash repo_url)
  decide (5 ≤ parts.length) && (parts.get? 2 == some githubHost)

/-- src/app.py lines 12-42, `get_repo_size`.  The owner/repo extraction on
lines 19-24 only selects which API endpoint is queried; the endpoint response
is injected as `resp`.  The reported size (kilobytes, defaulting to 0 when the
field is absent) is divided by 1024 to obtain megabytes. -/
def get_repo_size (repo_url : List Char) (resp : ApiResponse) : Except PipeError ℚ :=
  if valid_github_parts repo_url then
    match resp with
    | .ok sizeField => .ok (sizeField.getD 0 / 1024)
    | .httpError code reason => .error (.remoteApiError code reason)
    | .urlError reason => .error (.transferError reason)
    | .otherExc reason => .error (.fetchError reason)
  else .error .invalidUrl

/-- The assembled analysis of one repository: the remote-reported size, both
aggregate counts (src/app.py lines 121-126), the rendered tree, and the
ordered file records. -/
structure Report where
  sizeMB : ℚ
  totalLines : Nat
  totalChars : Nat
  renderedTree : List Char
  records : List (List Char × List Char)
deriving DecidableEq

/-- Injected behaviour of the external collaborators during one run: the
GitHub metadata response, the temporary directory path handed out by
`tempfile.TemporaryDirectory`, the outcome of `git clone` (the snapshot
contents on success, the diagnostic of a `CalledProcessError` on failure), and
an optional exception injected at any point after the clone, caught by the
`except Exception` clause on line 142. -/
structure Oracle where
  apiResp : ApiResponse
  tempPath : List Char
  cloneResult : Except (List Char) (List (List Char × FileData) × DirList)
  injected : Option (List Char)

deriving instance DecidableEq for Except

/-- Observable outcome of one `generate_repo_analysis` run: the returned value
(report or error), whether `git clone` was invoked, whether the temporary
directory was ever created, and whether it still exists once the function has
returned. -/
structure RunOutcome where
  result : Except PipeError Report
  cloneInvoked : Bool
  tempCreated : Bool
  tempExistsAfter : Bool
deriving DecidableEq

/-- src/app.py lines 95-143, `generate_repo_analysis`.  The
`with tempfile.TemporaryDirectory()` block is modelled by its Python
semantics: on every exit path of the body, normal or raised-and-caught, the
context manager deletes the directory, so `tempExistsAfter` is false whenever
the block was entered. -/
def generate_repo_analysis (repo_url : List Char) (o : Oracle) : RunOutcome :=
  match get_repo_size repo_url o.apiResp with
  | .error e => ⟨.error e, false, false, false⟩
  | .ok repo_size =>
    if repo_size > 100 then
      ⟨.error (.sizeExceeded repo_size 100), false, false, false⟩
    else
      match o.cloneResult with
      | .error diag => ⟨.error (.acquisitionError diag), true, true, false⟩
      | .ok (files, subdirs) =>
        match o.injected with
        | some msg => ⟨.error (.injectedError msg), true, true, false⟩
        | none =>
          let repo_name := extract_repo_name_from_url repo_url
          let clone_dir := joinPath o.tempPath repo_name
          let snapshot := Dir.mk repo_name files subdirs
          let directory_structure := get_directory_structure snapshot
          let file_contents := extract_all_files_contents clone_dir snapshot
          let total_lines := countNL directory_structure
            + (file_contents.map (fun p => countNL p.2)).sum
          let total_chars := directory_structure.length
            + (file_contents.map (fun p => p.2.length)).sum
          ⟨.ok ⟨repo_size, total_lines, total_chars, directory_structure, file_contents⟩,
            true, true, false⟩

mutual
/-- Remove every directory named `.git`, at every level, from a snapshot.
Rendering is invariant under this scrub (claim C7), which is the formal sense
in which nothing inside a metadata directory is ever visited or rendered. -/
def scrubD : Dir → Dir
  | .mk n files subdirs => .mk n files (scrubDs subdirs)

def scrubDs : DirList → DirList
  | .nil => .nil
  | .cons d rest =>
    if d.name = gitToken then scrubDs rest else .cons (scrubD d) (scrubDs rest)
end

/-- Number of sibling directories named `.git`. -/
def countGit : DirList → Nat
  | .nil => 0
  | .cons d rest => (if d.name = gitToken then 1 else 0) + countGit rest

mutual
/-- Well-formedness of a snapshot as a real directory tree: no level contains
two sibling directories named `.git` (on a filesystem, sibling names are
unique). -/
def gitOnceD : Dir → Bool
  | .mk _ _ subdirs => decide (countGit subdirs ≤ 1) && gitOnceDs subdirs

def gitOnceDs : DirList → Bool
  | .nil => true
  | .cons d rest => gitOnceD d && gitOnceDs rest
end

mutual
/-- Replace the data of every file by a read failure, keeping names and
structure: used to state that extraction keys never depend on whether any
individual file could be read (claim C2). -/
def corruptD : Dir → Dir
  | .mk n files subdirs =>
    .mk n (files.map (fun f => (f.1, FileData.unreadable (strL "io failure")))) (corruptDs subdirs)

def corruptDs : DirList → DirList
  | .nil => .nil
  | .cons d rest => .cons (corruptD d) (corruptDs rest)
end

theorem pfx_append_self (s t : List Char) : pfx s (s ++ t) = true := by
  induction s with
  | nil => rfl
  | cons a as ih => simp [pfx, ih]

theorem pfx_trans {a b c : List Char} (h1 : pfx a b = true) (h2 : pfx b c = true) :
    pfx a c = true := by
  induction a generalizing b c with
  | nil => rfl
  | cons x xs ih =>
    cases b with
    | nil => simp [pfx] at h1
    | cons y ys =>
      cases c with
      | nil => simp [pfx] at h2
      | cons z zs =>
        simp only [pfx, Bool.and_eq_true, beq_iff_eq] at h1 h2 ⊢
        exact ⟨h1.1.trans h2.1, ih h1.2 h2.2⟩

theorem splitFirst_pfx (sep s : List Char) : pfx (splitFirst sep s) s = true := by
  induction s with
  | nil => rfl
  | cons c rest ih =>
    simp only [splitFirst]
    split
    · rfl
    · simp [pfx, ih]

theorem hasSub_of_pfx {sep s : List Char} (h : pfx sep s = true) : hasSub sep s = true := by
  cases s with
  | nil => simpa [hasSub] using h
  | cons c rest => simp [hasSub, h]

theorem hasSub_append_right {sep a : List Char} (b : List Char)
    (h : hasSub sep a = true) : hasSub sep (a ++ b) = true := by
  induction a with
  | nil =>
    have hsep : sep = [] := by
      cases sep with
      | nil => rfl
      | cons x xs => simp [hasSub, pfx] at h
    subst hsep
    cases b <;> simp [hasSub, pfx]
  | cons c rest ih =>
    simp only [hasSub, Bool.or_eq_true] at h
    rcases h with h | h
    · exact hasSub_of_pfx (pfx_trans h (by simpa using pfx_append_self (c :: rest) b))
    · have hr := ih h
      simp [hasSub, hr]

theorem splitFirst_eq_self {sep s : List Char} (h : hasSub sep s = false) :
    splitFirst sep s = s := by
  induction s with
  | nil => rfl
  | cons c rest ih =>
    simp only [hasSub, Bool.or_eq_false_iff] at h
    simp [splitFirst, h.1, ih h.2]

theorem hasSub_splitFirst {sep : List Char} (hne : sep ≠ []) (s : List Char) :
    hasSub sep (splitFirst sep s) = false := by
  induction s with
  | nil =>
    cases sep with
    | nil => exact absurd rfl hne
    | cons x xs => simp [splitFirst, hasSub, pfx]
  | cons c rest ih =>
    by_cases hp : pfx sep (c :: rest) = true
    · have hz : splitFirst sep (c :: rest) = [] := by simp [splitFirst, hp]
      rw [hz]
      cases sep with
      | nil => exact absurd rfl hne
      | cons x xs => simp [hasSub, pfx]
    · rw [Bool.not_eq_true] at hp
      have hlift : pfx (c :: splitFirst sep rest) (c :: rest) = true := by
        simp [pfx, splitFirst_pfx]
      have hfirst : pfx sep (c :: splitFirst sep rest) = false := by
        by_contra hx
        rw [Bool.not_eq_false] at hx
        rw [pfx_trans hx hlift] at hp
        exact Bool.true_eq_false.mp hp
      simp [splitFirst, hp, hasSub, hfirst, ih]

theorem treeMarker_eq : treeMarker = ['/', 't', 'r', 'e', 'e', '/'] := rfl

/-- Border analysis of the marker `/tree/`: an occurrence of the marker that
starts inside `w` but reaches into an appended `/tree/...` forces `w` to end
with `/tree`, i.e. the marker occurs in `w ++ "/"`. -/
theorem pfx_treeMarker_straddle : ∀ (w x : List Char),
    pfx treeMarker (w ++ treeMarker ++ x) = true →
    w = [] ∨ pfx treeMarker (w ++ ['/']) = true
  | [], _, _ => Or.inl rfl
  | [a], x, h => by
    rw [treeMarker_eq] at h
    simp [pfx] at h
  | [a, b], x, h => by
    rw [treeMarker_eq] at h
    simp [pfx] at h
  | [a, b, c], x, h => by
    rw [treeMarker_eq] at h
    simp [pfx] at h
  | [a, b, c, d], x, h => by
    rw [treeMarker_eq] at h
    simp [pfx] at h
  | [a, b, c, d, e], x, h => by
    rw [treeMarker_eq] at h ⊢
    simp only [List.cons_append, List.nil_append, pfx, Bool.and_eq_true, beq_iff_eq] at h
    refine Or.inr ?_
    obtain ⟨h1, h2, h3, h4, h5, -⟩ := h
    subst h1; subst h2; subst h3; subst h4; subst h5
    decide
  | a :: b :: c :: d :: e :: f :: w', x, h => by
    rw [treeMarker_eq] at h ⊢
    simp only [List.cons_append, List.nil_append, pfx, Bool.and_eq_true, beq_iff_eq] at h
    refine Or.inr ?_
    obtain ⟨h1, h2, h3, h4, h5, h6, -⟩ := h
    subst h1; subst h2; subst h3; subst h4; subst h5; subst h6
    simp [pfx]

theorem splitFirst_nil_of_pfx {sep : List Char} {c : Char} {rest : List Char}
    (h : pfx sep (c :: rest) = true) : splitFirst sep (c :: rest) = [] := by
  simp [splitFirst, h]

theorem splitFirst_cons_of_not_pfx {sep : List Char} {c : Char} {rest : List Char}
    (h : pfx sep (c :: rest) = false) :
    splitFirst sep (c :: rest) = c :: splitFirst sep rest := by
  simp [splitFirst, h]

/-- Appending `/tree/<anything>` to a URL that is clean even when a slash is
appended cuts the URL back exactly to itself. -/
theorem splitFirst_treeMarker_append (u x : List Char)
    (h : hasSub treeMarker (u ++ ['/']) = false) :
    splitFirst treeMarker (u ++ treeMarker ++ x) = u := by
  induction u with
  | nil =>
    have h1 : pfx treeMarker (treeMarker ++ x) = true := pfx_append_self _ _
    simp only [List.nil_append]
    rw [treeMarker_eq] at h1 ⊢
    simp only [List.cons_append, List.nil_append] at h1 ⊢
    exact splitFirst_nil_of_pfx h1
  | cons c u' ih =>
    simp only [List.cons_append, hasSub, Bool.or_eq_false_iff] at h
    have hcond : pfx treeMarker (c :: (u' ++ treeMarker ++ x)) = false := by
      by_contra hx
      rw [Bool.not_eq_false] at hx
      have hx' : pfx treeMarker ((c :: u') ++ treeMarker ++ x) = true := by
        simpa using hx
      rcases pfx_treeMarker_straddle (c :: u') x hx' with hnil | hstr
      · exact List.noConfusion hnil
      · exact absurd (hstr.symm.trans h.1) (by simp)
    simp only [List.cons_append]
    rw [splitFirst_cons_of_not_pfx hcond, ih h.2]

def c5url : List Char := strL "https://github.com/org/repo/blob/main/app.py"

/-- C5 counterexample: for a locator with a `/blob/` file marker, the URL that
`clone_repo` hands to git differs from the spec canonical URL (which strips
`/blob/` as well), and it still contains the file marker. -/
theorem C5_counterexample :
    clone_repo c5url ≠ canonical_url_spec c5url ∧
    hasSub blobMarker (clone_repo c5url) = true :=
  ⟨by decide, by decide⟩

/-- C5 (amended): the URL handed to the version-control client is obtained by
stripping everything from a `/tree/` sub-path marker onward only, so it never
contains a sub-path marker; a `/blob/` file marker is not stripped and may
remain in the acquired URL. -/
theorem C5_clone_url_strips_only_tree (repo_url : List Char) :
    clone_repo repo_url = splitFirst treeMarker repo_url ∧
    hasSub treeMarker (clone_repo repo_url) = false :=
  ⟨rfl, hasSub_splitFirst (by decide) repo_url⟩

/-- C6: the short name is the last slash-delimited segment of the canonical
URL (the locator with `/tree/` and `/blob/` suffixes stripped) after removing
trailing slashes, truncated at its first dot when it contains one; the
returned short name therefore never contains a dot, and the example
`https://host/org/myrepo.git` yields `myrepo`. -/
theorem C6_short_name :
    (∀ repo_url : List Char,
      extract_repo_name_from_url repo_url =
        (let seg := lastSegment (rstripSlash (canonical_url_spec repo_url))
         if hasSub dotToken seg then splitFirst dotToken seg else seg)) ∧
    (∀ repo_url : List Char,
      hasSub dotToken (extract_repo_name_from_url repo_url) = false) ∧
    extract_repo_name_from_url (strL "https://host/org/myrepo.git") = strL "myrepo" := by
  refine ⟨fun repo_url => rfl, fun repo_url => ?_, by decide⟩
  simp only [extract_repo_name_from_url]
  by_cases hd : hasSub dotToken
      (lastSegment (rstripSlash (splitFirst blobMarker (splitFirst treeMarker repo_url)))) = true
  · rw [if_pos hd]
    exact hasSub_splitFirst (by decide) _
  · rw [if_neg hd]
    rw [Bool.not_eq_true] at hd
    exact hd

def c9url : List Char := strL "https://host/org/tree"

/-- C9 counterexample: the URL `https://host/org/tree` contains neither a
`/tree/` sub-path marker nor a `/blob/` file marker, yet appending
`/tree/main` changes the normalization result, because the appended marker
overlaps the trailing `/tree` of the original URL and the cut happens at the
earlier, straddling occurrence. -/
theorem C9_counterexample :
    hasSub treeMarker c9url = false ∧ hasSub blobMarker c9url = false ∧
    normalizeLocator (c9url ++ treeMarker ++ strL "main") ≠ normalizeLocator c9url :=
  ⟨by decide, by decide, by decide⟩

/-- C9 (amended): for every URL `u` that contains no marker even after a
trailing slash is appended (equivalently: no `/tree/` or `/blob/` occurrence
and not ending in `/tree`), and every suffix, normalizing `u ++ "/tree/" ++
suffix` yields the same canonical URL and short name as normalizing `u`. -/
theorem C9_normalize_tree_append (u suffix : List Char)
    (ht : hasSub treeMarker (u ++ ['/']) = false)
    (hb : hasSub blobMarker u = false) :
    normalizeLocator (u ++ treeMarker ++ suffix) = normalizeLocator u := by
  have htu : hasSub treeMarker u = false := by
    by_contra hx
    rw [Bool.not_eq_false] at hx
    exact absurd (hasSub_append_right ['/'] hx) (by simp [ht])
  have h1 : splitFirst treeMarker (u ++ treeMarker ++ suffix) = u :=
    splitFirst_treeMarker_append u suffix ht
  have h2 : splitFirst treeMarker u = u := splitFirst_eq_self htu
  have h3 : splitFirst blobMarker u = u := splitFirst_eq_self hb
  simp only [normalizeLocator, clone_repo, extract_repo_name_from_url, h1, h2, h3]

/-- C9 witness: the amended theorem applied to a concrete clean URL. -/
theorem C9_normalize_tree_append_witness :
    hasSub treeMarker (strL "https://github.com/org/repo" ++ ['/']) = false ∧
    hasSub blobMarker (strL "https://github.com/org/repo") = false ∧
    normalizeLocator (strL "https://github.com/org/repo" ++ treeMarker ++ strL "main")
      = normalizeLocator (strL "https://github.com/org/repo") :=
  ⟨by decide, by decide,
    C9_normalize_tree_append (strL "https://github.com/org/repo") (strL "main")
      (by decide) (by decide)⟩

theorem scrubD_name (d : Dir) : (scrubD d).name = d.name := by
  cases d
  rfl

theorem hasSub_append_left {sep b : List Char} (a : List Char)
    (h : hasSub sep b = true) : hasSub sep (a ++ b) = true := by
  induction a with
  | nil => simpa using h
  | cons c rest ih =>
    simp only [List.cons_append, hasSub, Bool.or_eq_true]
    exact Or.inr ih

mutual
theorem extractT_git : ∀ (absDir relDir : List Char) (d : Dir),
    hasSub gitToken absDir = true → extractT absDir relDir d = []
  | absDir, relDir, .mk n fs ds, h => by
    simp only [extractT, h, if_true]
    simpa using extractDs_git absDir relDir ds h

theorem extractDs_git : ∀ (absDir relDir : List Char) (ds : DirList),
    hasSub gitToken absDir = true → extractDs absDir relDir ds = []
  | _, _, .nil, _ => rfl
  | absDir, relDir, .cons d rest, h => by
    have hchild : hasSub gitToken (joinPath absDir d.name) = true :=
      hasSub_append_right ('/' :: d.name) h
    simp only [extractDs]
    rw [extractT_git _ _ d hchild, extractDs_git absDir relDir rest h]
    rfl
end

theorem countGit_scrubDs : ∀ ds : DirList, countGit (scrubDs ds) = 0
  | .nil => rfl
  | .cons d rest => by
    simp only [scrubDs]
    split
    · exact countGit_scrubDs rest
    · rename_i hne
      simp only [countGit, scrubD_name]
      rw [if_neg hne, countGit_scrubDs rest]

theorem renderPruned_eq_renderAll : ∀ (level : Nat) (ds : DirList), countGit ds = 0 →
    renderPruned level ds = renderAll level ds
  | _, .nil, _ => rfl
  | level, .cons d rest, h => by
    simp only [countGit] at h
    have hd : ¬ d.name = gitToken := by
      intro hx
      rw [if_pos hx] at h
      omega
    have hr : countGit rest = 0 := by
      rw [if_neg hd] at h
      omega
    simp only [renderPruned, renderAll]
    rw [if_neg hd, renderPruned_eq_renderAll level rest hr]

mutual
theorem renderScrubD : ∀ (level : Nat) (d : Dir), gitOnceD d = true →
    renderD level (scrubD d) = renderD level d
  | level, .mk n fs ds, h => by
    simp only [gitOnceD, Bool.and_eq_true, decide_eq_true_eq] at h
    simp only [scrubD, renderD]
    rw [renderScrubPruned (level + 1) ds h.1 h.2]

theorem renderScrubPruned : ∀ (level : Nat) (ds : DirList), countGit ds ≤ 1 →
    gitOnceDs ds = true → renderPruned level (scrubDs ds) = renderPruned level ds
  | _, .nil, _, _ => rfl
  | level, .cons d rest, h1, h2 => by
    simp only [gitOnceDs, Bool.and_eq_true] at h2
    by_cases hg : d.name = gitToken
    · have hr0 : countGit rest = 0 := by
        simp only [countGit] at h1
        rw [if_pos hg] at h1
        omega
      rw [show scrubDs (.cons d rest) = scrubDs rest by simp [scrubDs, hg]]
      rw [show renderPruned level (.cons d rest) = renderAll level rest by
        simp [renderPruned, hg]]
      rw [renderPruned_eq_renderAll level (scrubDs rest) (countGit_scrubDs rest)]
      exact renderScrubAll level rest hr0 h2.2
    · have hr1 : countGit rest ≤ 1 := by
        simp only [countGit] at h1
        rw [if_neg hg] at h1
        omega
      rw [show scrubDs (.cons d rest) = .cons (scrubD d) (scrubDs rest) by
        simp [scrubDs, hg]]
      have hname : ¬ (scrubD d).name = gitToken := by
        rw [scrubD_name]
        exact hg
      simp only [renderPruned]
      rw [if_neg hname, if_neg hg, renderScrubD level d h2.1,
        renderScrubPruned level rest hr1 h2.2]

theorem renderScrubAll : ∀ (level : Nat) (ds : DirList), countGit ds = 0 →
    gitOnceDs ds = true → renderAll level (scrubDs ds) = renderAll level ds
  | _, .nil, _, _ => rfl
  | level, .cons d rest, h1, h2 => by
    simp only [gitOnceDs, Bool.and_eq_true] at h2
    have hg : ¬ d.name = gitToken := by
      intro hx
      simp only [countGit] at h1
      rw [if_pos hx] at h1
      omega
    have hr0 : countGit rest = 0 := by
      simp only [countGit] at h1
      rw [if_neg hg] at h1
      omega
    rw [show scrubDs (.cons d rest) = .cons (scrubD d) (scrubDs rest) by
      simp [scrubDs, hg]]
    simp only [renderAll]
    rw [renderScrubD level d h2.1, renderScrubAll level rest hr0 h2.2]
end

theorem corruptD_name (d : Dir) : (corruptD d).name = d.name := by
  cases d
  rfl

mutual
theorem extractT_corrupt_keys : ∀ (absDir relDir : List Char) (d : Dir),
    (extractT absDir relDir (corruptD d)).map Prod.fst
      = (extractT absDir relDir d).map Prod.fst
  | absDir, relDir, .mk n fs ds => by
    simp only [corruptD, extractT, List.map_append]
    rw [extractDs_corrupt_keys absDir relDir ds]
    congr 1
    by_cases h : hasSub gitToken absDir = true
    · rw [if_pos h, if_pos h]
    · rw [if_neg h, if_neg h]
      simp [List.map_map, Function.comp]

theorem extractDs_corrupt_keys : ∀ (absDir relDir : List Char) (ds : DirList),
    (extractDs absDir relDir (corruptDs ds)).map Prod.fst
      = (extractDs absDir relDir ds).map Prod.fst
  | _, _, .nil => rfl
  | absDir, relDir, .cons d rest => by
    simp only [corruptDs, extractDs, List.map_append, corruptD_name]
    rw [extractT_corrupt_keys _ _ d, extractDs_corrupt_keys absDir relDir rest]
end

def c7snapshot : Dir :=
  .mk (strL "repo") []
    (.cons (.mk (strL "a") [(strL "b.txt", .text (strL "hello"))] .nil)
      (.cons (.mk (strL ".git") [(strL "HEAD", .text (strL "ref: main"))] .nil) .nil))

/-- C7: the Tree Walker never renders or lists anything inside the
version-control metadata directory.  Formally: (1) on any well-formed
snapshot (sibling names unique, so at most one `.git` per level) the rendered
tree is invariant under deleting every `.git` directory with its whole
subtree; (2) the extractor emits nothing for any walk root whose absolute
path contains `.git`; and on the concrete snapshot `repo/a/b.txt` plus
`repo/.git/HEAD`, the rendered tree has exactly the lines for `repo/`, `a/`
and `b.txt`, and the enumerated entries are exactly `a/b.txt`. -/
theorem C7_tree_walker :
    (∀ (level : Nat) (d : Dir), gitOnceD d = true →
       renderD level (scrubD d) = renderD level d) ∧
    (∀ (absDir relDir : List Char) (d : Dir), hasSub gitToken absDir = true →
       extractT absDir relDir d = []) ∧
    get_directory_structure c7snapshot
      = strL "├── repo/\n    ├── a/\n        ├── b.txt" ∧
    extract_all_files_contents (strL "/tmp/work/repo") c7snapshot
      = [(strL "a/b.txt", strL "hello")] :=
  ⟨fun level d h => renderScrubD level d h,
   fun absDir relDir d h => extractT_git absDir relDir d h,
   by decide, by decide⟩

/-- C7 witness: the two universally quantified parts of C7 instantiated at
the concrete snapshot and at a `.git` walk root. -/
theorem C7_tree_walker_witness :
    gitOnceD c7snapshot = true ∧
    renderD 0 (scrubD c7snapshot) = renderD 0 c7snapshot ∧
    hasSub gitToken (strL "/tmp/work/repo/.git") = true ∧
    extractT (strL "/tmp/work/repo/.git") (strL ".git") c7snapshot = [] :=
  ⟨by decide, C7_tree_walker.1 0 c7snapshot (by decide), by decide,
   C7_tree_walker.2.1 (strL "/tmp/work/repo/.git") (strL ".git") c7snapshot (by decide)⟩

def c2snapshot : Dir :=
  .mk (strL "repo") [(strL "my.github.md", .text (strL "hello"))] .nil

/-- C2 counterexample: the relative path `my.github.md` does not contain the
metadata directory `.git` as a path segment, yet the Content Extractor never
attempts the UTF-8 read for it: since `.git` occurs in the file path as a
substring, the fixed ignore sentinel is recorded instead of the file text. -/
theorem C2_counterexample :
    ((strL "my.github.md").splitOn '/').all (fun seg => !(seg == gitToken)) = true ∧
    extract_all_files_contents (strL "/tmp/work/repo") c2snapshot
      = [(strL "my.github.md", ignoredSentinel)] ∧
    ignoredSentinel ≠ strL "hello" :=
  ⟨by decide, by decide, by decide⟩

/-- C2 (amended): for every file whose full path does not contain `.git` as a
substring, the extractor returns the decoded text, and on a decoding or OS
failure it records the sentinel error string carrying the reason (a file
whose path contains `.git` as a substring is instead recorded with the fixed
ignore sentinel); extraction always completes with the same keys in the same
order no matter which individual files fail to read. -/
theorem C2_content_extractor :
    (∀ (file_path content : List Char), hasSub gitToken file_path = false →
       read_file_contents file_path (.text content) = content) ∧
    (∀ (file_path reason : List Char), hasSub gitToken file_path = false →
       read_file_contents file_path (.unreadable reason) = errorSentinel reason) ∧
    (∀ (absDir relDir : List Char) (d : Dir),
       (extractT absDir relDir (corruptD d)).map Prod.fst
         = (extractT absDir relDir d).map Prod.fst) := by
  refine ⟨?_, ?_, fun absDir relDir d => extractT_corrupt_keys absDir relDir d⟩
  · intro p c h
    simp [read_file_contents, h]
  · intro p r h
    simp [read_file_contents, h]

/-- C2 witness: the amended contract instantiated at concrete paths and at
the concrete snapshot. -/
theorem C2_content_extractor_witness :
    read_file_contents (strL "/tmp/work/repo/readme.md") (.text (strL "hi")) = strL "hi" ∧
    read_file_contents (strL "/tmp/work/repo/data.bin") (.unreadable (strL "bad utf-8"))
      = errorSentinel (strL "bad utf-8") ∧
    (extractT (strL "/tmp/work/repo") [] (corruptD c2snapshot)).map Prod.fst
      = (extractT (strL "/tmp/work/repo") [] c2snapshot).map Prod.fst :=
  ⟨C2_content_extractor.1 _ _ (by decide),
   C2_content_extractor.2.1 _ _ (by decide),
   C2_content_extractor.2.2 (strL "/tmp/work/repo") [] c2snapshot⟩

/-- Shared helper: whenever the size query succeeds with a value above the
100 MB ceiling, the run terminates with the size-exceeded error carrying the
measured size and the ceiling, without ever invoking the clone. -/
theorem run_size_exceeded (repo_url : List Char) (o : Oracle) (sz : ℚ)
    (h : get_repo_size repo_url o.apiResp = Except.ok sz) (hgt : sz > 100) :
    (generate_repo_analysis repo_url o).result
      = Except.error (.sizeExceeded sz 100) ∧
    (generate_repo_analysis repo_url o).cloneInvoked = false := by
  simp only [generate_repo_analysis, h]
  rw [if_pos hgt]
  exact ⟨rfl, rfl⟩

/-- C1: if the provider-reported size in MB exceeds the 100 MB ceiling, the
run results in the size-exceeded error carrying the measured size and the
ceiling, and the version-control clone is never invoked in that run. -/
theorem C1_size_guard (repo_url : List Char) (o : Oracle) (sz : ℚ)
    (h : get_repo_size repo_url o.apiResp = Except.ok sz) (hgt : sz > 100) :
    (generate_repo_analysis repo_url o).result
      = Except.error (.sizeExceeded sz 100) ∧
    (generate_repo_analysis repo_url o).cloneInvoked = false :=
  run_size_exceeded repo_url o sz h hgt

def c1oracle : Oracle :=
  ⟨.ok (some 204800), strL "/tmp/run1", .error (strL "never invoked"), none⟩

/-- C1 witness: a 204800 KB (200 MB) repository is rejected and the clone is
not invoked. -/
theorem C1_size_guard_witness :
    get_repo_size (strL "https://github.com/org/big") c1oracle.apiResp = Except.ok 200 ∧
    (200 : ℚ) > 100 ∧
    (generate_repo_analysis (strL "https://github.com/org/big") c1oracle).result
      = Except.error (.sizeExceeded 200 100) ∧
    (generate_repo_analysis (strL "https://github.com/org/big") c1oracle).cloneInvoked
      = false := by
  have hv : valid_github_parts (strL "https://github.com/org/big") = true := by decide
  have h : get_repo_size (strL "https://github.com/org/big") c1oracle.apiResp
      = Except.ok 200 := by
    show get_repo_size (strL "https://github.com/org/big") (ApiResponse.ok (some 204800))
      = Except.ok 200
    unfold get_repo_size
    rw [if_pos hv]
    exact congrArg Except.ok (by norm_num [Option.getD_some])
  have hgt : (200 : ℚ) > 100 := by norm_num
  have hc := C1_size_guard (strL "https://github.com/org/big") c1oracle 200 h hgt
  exact ⟨h, hgt, hc.1, hc.2⟩

/-- C3: after every run of the pipeline, whatever response, clone outcome or
injected post-clone failure the environment produced, the ephemeral snapshot
destination no longer exists (the temporary-directory context manager deletes
it on every exit path). -/
theorem C3_cleanup (repo_url : List Char) (o : Oracle) :
    (generate_repo_analysis repo_url o).tempExistsAfter = false := by
  cases hg : get_repo_size repo_url o.apiResp with
  | error e => simp [generate_repo_analysis, hg]
  | ok sz =>
    by_cases hlt : sz > 100
    · simp [generate_repo_analysis, hg, hlt]
    · cases hc : o.cloneResult with
      | error diag => simp [generate_repo_analysis, hg, hlt, hc]
      | ok pair =>
        cases pair with
        | mk files subdirs =>
          cases hi : o.injected with
          | some m => simp [generate_repo_analysis, hg, hlt, hc, hi]
          | none => simp [generate_repo_analysis, hg, hlt, hc, hi]

/-- C4: in every assembled report, the total line count equals the newline
count of the rendered tree plus the sum of newline counts over every file
record content (sentinel strings included), and the total character count is
the analogous sum of lengths. -/
theorem C4_report_totals (repo_url : List Char) (o : Oracle) (r : Report)
    (h : (generate_repo_analysis repo_url o).result = Except.ok r) :
    r.totalLines = countNL r.renderedTree + (r.records.map (fun p => countNL p.2)).sum ∧
    r.totalChars = r.renderedTree.length + (r.records.map (fun p => p.2.length)).sum := by
  cases hg : get_repo_size repo_url o.apiResp with
  | error e => simp [generate_repo_analysis, hg] at h
  | ok sz =>
    by_cases hlt : sz > 100
    · simp [generate_repo_analysis, hg, hlt] at h
    · cases hc : o.cloneResult with
      | error diag => simp [generate_repo_analysis, hg, hlt, hc] at h
      | ok pair =>
        cases pair with
        | mk files subdirs =>
          cases hi : o.injected with
          | some m => simp [generate_repo_analysis, hg, hlt, hc, hi] at h
          | none =>
            simp only [generate_repo_analysis, hg, hc, hi, hlt, reduceIte,
              Except.ok.injEq] at h
            subst h
            exact ⟨rfl, rfl⟩

def c4url : List Char := strL "https://github.com/org/demo"

def c4oracle : Oracle :=
  ⟨.ok (some 1024), strL "/tmp/c4",
    .ok ([(strL "f.txt", .text (strL "one\ntwo"))],
      .cons (.mk (strL "sub") [(strL "g.txt", .unreadable (strL "boom"))] .nil) .nil),
    none⟩

def c4snapshot : Dir :=
  .mk (strL "demo") [(strL "f.txt", .text (strL "one\ntwo"))]
    (.cons (.mk (strL "sub") [(strL "g.txt", .unreadable (strL "boom"))] .nil) .nil)

def c4tree : List Char := get_directory_structure c4snapshot

def c4records : List (List Char × List Char) :=
  extract_all_files_contents (strL "/tmp/c4/demo") c4snapshot

def c4report : Report :=
  ⟨1, countNL c4tree + (c4records.map (fun p => countNL p.2)).sum,
    c4tree.length + (c4records.map (fun p => p.2.length)).sum, c4tree, c4records⟩

/-- C4 witness: a successful run on a concrete two-file snapshot produces the
expected report, to which the aggregate-count theorem applies. -/
theorem C4_report_totals_witness :
    (generate_repo_analysis c4url c4oracle).result = Except.ok c4report ∧
    c4report.totalLines = countNL c4report.renderedTree
      + (c4report.records.map (fun p => countNL p.2)).sum ∧
    c4report.totalChars = c4report.renderedTree.length
      + (c4report.records.map (fun p => p.2.length)).sum := by
  have hg : get_repo_size c4url c4oracle.apiResp = Except.ok 1 := by
    show get_repo_size c4url (ApiResponse.ok (some 1024)) = Except.ok 1
    unfold get_repo_size
    rw [if_pos (by decide : valid_github_parts c4url = true)]
    exact congrArg Except.ok (by norm_num [Option.getD_some])
  have h : (generate_repo_analysis c4url c4oracle).result = Except.ok c4report := by
    simp only [generate_repo_analysis, hg]
    rw [if_neg (by norm_num : ¬ (1 : ℚ) > 100)]
    rfl
  have hc := C4_report_totals c4url c4oracle c4report h
  exact ⟨h, hc.1, hc.2⟩

def c8url : List Char := strL "https://github.com/someorg/somerepo"

def c8oracle : Oracle :=
  ⟨.ok (some 204800), strL "/tmp/c8", .error (strL "unused"), none⟩

/-- C8: the provider-reported size in kilobytes is converted to megabytes by
dividing by 1024; in particular a metadata response of 204800 KB yields
200 MB, which against the 100 MB ceiling produces the size-exceeded error
carrying 200 and 100. -/
theorem C8_kb_to_mb :
    (∀ (repo_url : List Char) (k : ℚ), valid_github_parts repo_url = true →
       get_repo_size repo_url (.ok (some k)) = Except.ok (k / 1024)) ∧
    get_repo_size c8url (.ok (some 204800)) = Except.ok 200 ∧
    (generate_repo_analysis c8url c8oracle).result
      = Except.error (.sizeExceeded 200 100) := by
  have hgen : ∀ (repo_url : List Char) (k : ℚ), valid_github_parts repo_url = true →
      get_repo_size repo_url (.ok (some k)) = Except.ok (k / 1024) := by
    intro u k hv
    unfold get_repo_size
    rw [if_pos hv]
    rfl
  have h200 : get_repo_size c8url (.ok (some 204800)) = Except.ok 200 := by
    rw [hgen c8url 204800 (by decide)]
    exact congrArg Except.ok (by norm_num)
  have h' : get_repo_size c8url c8oracle.apiResp = Except.ok 200 := h200
  exact ⟨hgen, h200, (run_size_exceeded c8url c8oracle 200 h' (by norm_num)).1⟩

/-- C8 witness: the kilobyte-to-megabyte conversion applied at a concrete
valid URL and size. -/
theorem C8_kb_to_mb_witness :
    valid_github_parts (strL "https://github.com/a/b") = true ∧
    get_repo_size (strL "https://github.com/a/b") (.ok (some 2048)) = Except.ok 2 :=
  ⟨by decide,
    (C8_kb_to_mb.1 (strL "https://github.com/a/b") 2048 (by decide)).trans
      (congrArg Except.ok (by norm_num))⟩

/-- C10: a successful metadata response that lacks the size field is not an
error: the size defaults to 0 KB, the guard passes, and the clone is
invoked. -/
theorem C10_missing_size_field (repo_url : List Char) (o : Oracle)
    (hv : valid_github_parts repo_url = true) (hr : o.apiResp = .ok none) :
    get_repo_size repo_url o.apiResp = Except.ok 0 ∧
    (generate_repo_analysis repo_url o).cloneInvoked = true := by
  have h0 : get_repo_size repo_url o.apiResp = Except.ok 0 := by
    rw [hr]
    unfold get_repo_size
    rw [if_pos hv]
    exact congrArg Except.ok (by simp)
  refine ⟨h0, ?_⟩
  simp only [generate_repo_analysis, h0]
  rw [if_neg (by norm_num : ¬ (0 : ℚ) > 100)]
  cases o.cloneResult with
  | error diag => rfl
  | ok pair =>
    cases pair
    cases o.injected <;> rfl

def c10url : List Char := strL "https://github.com/org/empty"

def c10oracle : Oracle := ⟨.ok none, strL "/tmp/c10", .ok ([], .nil), none⟩

/-- C10 witness: the missing-size behaviour at a concrete URL and oracle. -/
theorem C10_missing_size_field_witness :
    valid_github_parts c10url = true ∧ c10oracle.apiResp = .ok none ∧
    get_repo_size c10url c10oracle.apiResp = Except.ok 0 ∧
    (generate_repo_analysis c10url c10oracle).cloneInvoked = true := by
  have hv : valid_github_parts c10url = true := by decide
  have hc := C10_missing_size_field c10url c10oracle hv rfl
  exact ⟨hv, rfl, hc.1, hc.2⟩
